import Mathlib

/-!
# Verification of the `RHist` incremental histogram class (`src/hist.py`)

This file embeds the `RHist` class of `hist.py` into Lean 4 and proves (or
refutes) the specification's claims about it.

Modelling conventions:

* Python floats are modelled by `ℚ` wherever every value manipulated is finite
  (all arithmetic in the class is exact on such inputs apart from rounding
  noise, which no claim depends on).  The separate type `PyFloat` extends `ℚ`
  with the non-finite IEEE values (`nan`, `±inf`) for the ingestion claims.
* The `defaultdict(int)` field `h` is modelled by a `Finset` of explicitly
  present keys together with a total count function; a lookup of an absent key
  returns `0` (and, where the source performs such a lookup, the embedding
  also records the defaultdict's insertion of that key with value `0`).
* `n()` is `np.sum(self.h.values())`; on an empty histogram this is the NumPy
  float `0.0`, and NumPy float division by zero returns `inf`/`nan` with a
  `RuntimeWarning` — it does NOT raise.  A division whose result is one of
  those non-finite floats is modelled as `none : Option ℚ` (`npDiv`).
* A Python `IndexError` (raised by out-of-range list indexing in `median`) is
  modelled as `none : Option ℚ`; the source has no other exception paths.
* The source is Python 2: `/` on non-negative ints is truncating division,
  modelled by `Nat` division.
-/

/-- Round a rational to the nearest integer, halves to even
(the rounding mode of `np.round`). -/
def rhe (x : ℚ) : ℤ :=
  let f := ⌊x⌋
  let frac := x - f
  if frac < 1/2 then f
  else if 1/2 < frac then f + 1
  else if f % 2 = 0 then f else f + 1

/-- `np.round(x, d)`: round `x` to `d` decimal places (`d` may be negative),
halves to even. -/
def np_round (x : ℚ) (d : ℤ) : ℚ :=
  let s : ℚ := (10 : ℚ) ^ d
  (rhe (x * s) : ℚ) / s

/-- NumPy float division.  Division by zero produces a non-finite float
(`inf`, `-inf` or `nan`) together with a `RuntimeWarning` — no exception is
raised; all three non-finite outcomes are modelled as `none`. -/
def npDiv (a b : ℚ) : Option ℚ :=
  if b = 0 then none else some (a / b)

/-- Lookup in a `defaultdict(int)` modelled as an explicit key set plus a
total count function: an absent key reads as `0`. -/
def dlook {α : Type} [DecidableEq α] (ks : Finset α) (c : α → ℕ) (k : α) : ℕ :=
  if k ∈ ks then c k else 0

/-- The state of an `RHist` instance (`hist.py`, class `RHist`):
`decimals` and `name` are fixed at construction; `h` (here `keys`/`cnt`) is
the raw bin-count mapping; `hnorm` is the lazily computed normalized mapping
`h_norm` (`None` until `norm()` runs), stored as its key set and value
function. -/
structure RHist where
  decimals : ℤ
  name : String
  keys : Finset ℚ
  cnt : ℚ → ℕ
  hnorm : Option (Finset ℚ × (ℚ → ℚ))

namespace RHist

/-- `__init__(name, decimals=1)`: empty count mapping, no normalized copy. -/
def mk0 (name : String) (decimals : ℤ) : RHist :=
  { decimals := decimals, name := name, keys := ∅, cnt := fun _ => 0,
    hnorm := none }

/-- `add(x)`: `self.h[np.round(x, self.decimals)] += 1`.  The defaultdict
read-then-store increments the rounded key's count (from `0` if unseen).
The cached `h_norm` is NOT touched by the source. -/
def add (h : RHist) (x : ℚ) : RHist :=
  let key := np_round x h.decimals
  let v := dlook h.keys h.cnt key
  { h with keys := insert key h.keys,
           cnt := fun k => if k = key then v + 1 else h.cnt k }

/-- `n()`: `np.sum(self.h.values())`, the sum of all stored counts. -/
def n (h : RHist) : ℕ := ∑ k in h.keys, h.cnt k

/-- `norm()`: `h_norm` becomes a deep copy of `h` with every value multiplied
by `weight = 1./self.n()`.  On an empty histogram the NumPy weight is `inf`
(no exception), but the copied mapping is empty so the weight is never
observable; the Lean value `1/0 = 0` is likewise unobservable. -/
def norm (h : RHist) : RHist :=
  let weight : ℚ := 1 / (h.n : ℚ)
  { h with hnorm := some (h.keys, fun k => (h.cnt k : ℚ) * weight) }

/-- `mean()`: ensure `h_norm` exists (computing it if `None`), then return
`Σ p * x` over its items.  Returns the possibly updated state together with
the value; the `none` match arm is unreachable because `norm` always stores
`some`. -/
def mean (h : RHist) : RHist × ℚ :=
  let h' := if h.hnorm.isSome then h else h.norm
  match h'.hnorm with
  | some (ks, p) => (h', ∑ k in ks, p k * k)
  | none => (h', 0)

/-- `var()`: ensure `h_norm` exists, compute `mean = self.mean()`, return
`Σ p * (x - mean)^2` over the items of `h_norm`. -/
def var (h : RHist) : RHist × ℚ :=
  let h' := if h.hnorm.isSome then h else h.norm
  let m := (mean h').2
  match h'.hnorm with
  | some (ks, p) => (h', ∑ k in ks, p k * (k - m) ^ 2)
  | none => (h', 0)

/-- `median()`: sort the keys of `h`, let `nvalues` be their number; if even,
return `(values[nvalues/2] + values[nvalues/2 + 1]) / 2.0`, else return
`values[(nvalues+1)/2]` (Python 2 integer division).  An out-of-range index
raises `IndexError`, modelled as `none`. -/
def median (h : RHist) : Option ℚ :=
  let values := h.keys.sort (· ≤ ·)
  let nvalues := values.length
  if nvalues % 2 = 0 then
    match values.get? (nvalues / 2), values.get? (nvalues / 2 + 1) with
    | some a, some b => some ((a + b) / 2)
    | _, _ => none
  else
    values.get? ((nvalues + 1) / 2)

/-- `stdev()` returns `np.sqrt(var/(n-1))`.  This embedding returns the
radicand `var/(n-1)` (state passed through from `var`): the source's result
is its square root, and `np.sqrt` maps non-finite and `nan` radicands to
`nan` and finite non-negative ones monotonically, so every claim about
`stdev` succeeding/failing, and its value, is decided by the radicand.
`n - 1` is computed in `ℚ` (`n()` is a NumPy number, so `0 - 1 = -1`,
not Nat truncation). -/
def stdevRad (h : RHist) : RHist × Option ℚ :=
  let vh := var h
  (vh.1, npDiv vh.2 ((vh.1.n : ℚ) - 1))

/-- `above(criterion)`: sum the counts of all bins with key `>= criterion`
and divide by `float(n())` (NumPy division: `0.0/0.0` is `nan`, no
exception). -/
def above (h : RHist) (criterion : ℚ) : Option ℚ :=
  npDiv (∑ k in h.keys.filter (fun k => criterion ≤ k), (h.cnt k : ℚ)) (h.n : ℚ)

/-- `overlap(Rhist)`: for every key of `self.h`, read `Rhist.h[key]` — the
`except KeyError` arm is dead because `Rhist.h` is a defaultdict, which
instead inserts the missing key with value `0` — and accumulate
`max(val1, val2) - |val1 - val2|`; finally return the accumulated sum divided
by `n1 + n2`.  The returned pair is (value, `Rhist`'s state after the call),
the state change being the net effect of the defaultdict insertions: keys of
`self` absent from `Rhist.h` are now present with stored count `0`. -/
def overlap (s o : RHist) : Option ℚ × RHist :=
  let n1 := s.n
  let n2 := o.n
  let diffs : ℚ := ∑ k in s.keys,
    (max ((s.cnt k : ℚ)) ((dlook o.keys o.cnt k : ℚ))
      - |(s.cnt k : ℚ) - (dlook o.keys o.cnt k : ℚ)|)
  (npDiv diffs ((n1 : ℚ) + (n2 : ℚ)),
   { o with keys := o.keys ∪ s.keys,
            cnt := fun k => if k ∈ o.keys then o.cnt k
                            else if k ∈ s.keys then 0 else o.cnt k })

/-- Key set of the cached normalized mapping, when computed. -/
def hnormKeys (h : RHist) : Option (Finset ℚ) := h.hnorm.map Prod.fst

/-- Sum of the values of the cached normalized mapping, when computed. -/
def hnormSum (h : RHist) : Option ℚ :=
  h.hnorm.map (fun kp => ∑ k in kp.1, kp.2 k)

/-- The mean expressed directly over raw counts: `Σ k·cnt(k) / n`. -/
def meanFromCounts (h : RHist) : ℚ :=
  (∑ k in h.keys, (h.cnt k : ℚ) * k) / (h.n : ℚ)

/-- The variance expressed directly over raw counts:
`Σ (cnt(k)/n)·(k - mean)²`. -/
def varFromCounts (h : RHist) : ℚ :=
  ∑ k in h.keys, ((h.cnt k : ℚ) / (h.n : ℚ)) * (k - meanFromCounts h) ^ 2

end RHist

/-- A Python float value: a finite rational, or one of the non-finite IEEE
values `nan`, `inf`, `-inf`.  `add` performs no validation, so non-finite
samples flow into the count mapping; this type is the key domain needed to
state what `add` does to them. -/
inductive PyFloat where
  | fin (q : ℚ)
  | nan
  | inf
  | ninf
deriving DecidableEq

/-- `np.round(x, d)` on a possibly non-finite float: `np.round` returns
`nan`/`±inf` unchanged and rounds finite values as `np_round`. -/
def roundPy (x : PyFloat) (d : ℤ) : PyFloat :=
  match x with
  | .fin q => .fin (np_round q d)
  | y => y

/-- The `RHist` count mapping with the full Python-float key domain
(the class itself; only `__init__`, `add` and `n` are exercised on
non-finite keys, so `h_norm` is omitted here). -/
structure RHistX where
  decimals : ℤ
  name : String
  keys : Finset PyFloat
  cnt : PyFloat → ℕ

namespace RHistX

/-- `__init__(name, decimals=1)` restricted to the fields of `RHistX`. -/
def mk0 (name : String) (decimals : ℤ) : RHistX :=
  { decimals := decimals, name := name, keys := ∅, cnt := fun _ => 0 }

/-- `add(x)`: `self.h[np.round(x, self.decimals)] += 1` — no validation of
`x`; a non-finite sample is binned under its own (non-finite) key. -/
def add (h : RHistX) (x : PyFloat) : RHistX :=
  let key := roundPy x h.decimals
  let v := dlook h.keys h.cnt key
  { h with keys := insert key h.keys,
           cnt := fun k => if k = key then v + 1 else h.cnt k }

/-- `n()`: the sum of all stored counts. -/
def n (h : RHistX) : ℕ := ∑ k in h.keys, h.cnt k

end RHistX

/-! ## Concrete states used by the claims

All are built from `__init__` by `add` calls (`decimals = 1`), so each is a
state the running program reaches. -/

/-- A fresh empty histogram, `RHist("h", decimals=1)`. -/
def hist0 : RHist := RHist.mk0 "h" 1

/-- After `add(1.0)`: counts `{1.0: 1}`. -/
def hist1 : RHist := hist0.add 1

/-- After `add(1.0); add(1.0)`: counts `{1.0: 2}`. -/
def hist11 : RHist := hist1.add 1

/-- After `add(1.0); add(2.0)`: counts `{1.0: 1, 2.0: 1}`. -/
def hist12 : RHist := hist1.add 2

/-- After `add(1.0); add(2.0); add(3.0)`: counts `{1.0:1, 2.0:1, 3.0:1}`. -/
def hist123 : RHist := hist12.add 3

/-- After three `add(1.0)` and one `add(2.0)`: counts `{1.0: 3, 2.0: 1}`. -/
def hist1112 : RHist := ((hist1.add 1).add 1).add 2

/-- A second histogram `RHist("b", 1)` after `add(2.0)`: counts `{2.0: 1}`. -/
def histB : RHist := (RHist.mk0 "b" 1).add 2

/-- The state after `add(1.0)` followed by a `mean()` call: the `mean` call
computes and caches `h_norm`. -/
def c3cached : RHist := (hist1.mean).1

/-- `c3cached` after a further `add(2.0)`: counts `{1.0:1, 2.0:1}` but the
cached `h_norm` still reflects `{1.0: 1}` (the source never invalidates). -/
def c3stale : RHist := c3cached.add 2

/-- The state after `add(1.0)` followed by a direct `norm()` call. -/
def c9normed : RHist := hist1.norm

/-- `c9normed` after a further `add(2.0)`: `h_norm` is still the computed
normalization of `{1.0: 1}`. -/
def c9stale : RHist := c9normed.add 2

/-- `RHistX("x", 1)` after `add(float("nan"))`. -/
def histNan : RHistX := (RHistX.mk0 "x" 1).add PyFloat.nan

/-! ## Helper lemmas -/

/-- `np.round(1.0, 1) = 1.0`. -/
lemma np_round_1 : np_round 1 1 = 1 := by norm_num [np_round, rhe]

/-- `np.round(2.0, 1) = 2.0`. -/
lemma np_round_2 : np_round 2 1 = 2 := by norm_num [np_round, rhe]

/-- `np.round(3.0, 1) = 3.0`. -/
lemma np_round_3 : np_round 3 1 = 3 := by norm_num [np_round, rhe]

/-- The net effect of a defaultdict increment on the total count: reading
(0 if absent), storing the read value plus one under the key, and inserting
the key grows the sum of stored values by exactly one. -/
lemma sum_dlook_incr {α : Type} [DecidableEq α] (K : Finset α) (c : α → ℕ)
    (key : α) :
    (∑ k in insert key K, if k = key then dlook K c key + 1 else c k)
      = (∑ k in K, c k) + 1 := by
  have hins : insert key K = insert key (K.erase key) := by
    ext x
    simp only [Finset.mem_insert, Finset.mem_erase]
    constructor
    · intro hx
      rcases hx with hx | hx
      · exact Or.inl hx
      · by_cases hxk : x = key
        · exact Or.inl hxk
        · exact Or.inr ⟨hxk, hx⟩
    · intro hx
      rcases hx with hx | hx
      · exact Or.inl hx
      · exact Or.inr hx.2
  rw [hins, Finset.sum_insert (Finset.not_mem_erase key K), if_pos rfl]
  have herase : (∑ k in K.erase key, if k = key then dlook K c key + 1 else c k)
      = ∑ k in K.erase key, c k := by
    refine Finset.sum_congr rfl fun k hk => ?_
    exact if_neg (Finset.mem_erase.mp hk).1
  rw [herase]
  by_cases hk : key ∈ K
  · have := Finset.add_sum_erase K c hk
    rw [dlook, if_pos hk]
    omega
  · rw [dlook, if_neg hk, Finset.erase_eq_of_not_mem hk]
    omega

/-- `add` grows the total sample count by exactly one. -/
lemma add_n_fin (h : RHist) (x : ℚ) : (h.add x).n = h.n + 1 := by
  simp only [RHist.add, RHist.n]
  exact sum_dlook_incr h.keys h.cnt (np_round x h.decimals)

/-- `add` grows the total sample count by exactly one (non-finite keys). -/
lemma add_n_py (h : RHistX) (x : PyFloat) : (h.add x).n = h.n + 1 := by
  simp only [RHistX.add, RHistX.n]
  exact sum_dlook_incr h.keys h.cnt (roundPy x h.decimals)

/-- The per-bin term accumulated by `overlap`,
`max(v1, v2) - |v1 - v2|`, equals `min(v1, v2)`. -/
lemma overlap_term_min (a b : ℚ) : max a b - |a - b| = min a b := by
  rcases le_total a b with h | h
  · rw [max_eq_right h, abs_of_nonpos (by linarith), min_eq_left h]
    ring
  · rw [max_eq_left h, abs_of_nonneg (by linarith), min_eq_right h]
    ring

/-- The value computed by `overlap` in closed form: the sum of
`min(v1, v2)` over the keys present in both histograms, divided by
`n1 + n2`.  (Keys of `self` absent from `other` read as `0` through the
defaultdict and contribute `min(v1, 0) = 0`.) -/
lemma overlap_val (s o : RHist) :
    (s.overlap o).1
      = npDiv ((∑ k in s.keys ∩ o.keys, min (s.cnt k) (o.cnt k) : ℕ) : ℚ)
          ((s.n : ℚ) + (o.n : ℚ)) := by
  simp only [RHist.overlap]
  congr 1
  have hvanish : ∀ k ∈ s.keys, k ∉ s.keys ∩ o.keys →
      min (s.cnt k) (dlook o.keys o.cnt k) = 0 := by
    intro k hks hkio
    have hko : k ∉ o.keys := fun hko => hkio (Finset.mem_inter.mpr ⟨hks, hko⟩)
    simp [dlook, hko]
  have hsub : (∑ k in s.keys ∩ o.keys, min (s.cnt k) (dlook o.keys o.cnt k))
      = ∑ k in s.keys, min (s.cnt k) (dlook o.keys o.cnt k) :=
    Finset.sum_subset Finset.inter_subset_left hvanish
  have hcongr : (∑ k in s.keys ∩ o.keys, min (s.cnt k) (dlook o.keys o.cnt k))
      = ∑ k in s.keys ∩ o.keys, min (s.cnt k) (o.cnt k) :=
    Finset.sum_congr rfl fun k hk => by
      simp [dlook, (Finset.mem_inter.mp hk).2]
  have hmin : (∑ k in s.keys,
      (max ((s.cnt k : ℚ)) ((dlook o.keys o.cnt k : ℚ))
        - |(s.cnt k : ℚ) - (dlook o.keys o.cnt k : ℚ)|))
      = ((∑ k in s.keys, min (s.cnt k) (dlook o.keys o.cnt k) : ℕ) : ℚ) := by
    rw [Nat.cast_sum]
    refine Finset.sum_congr rfl fun k _ => ?_
    rw [overlap_term_min, Nat.cast_min]
  rw [hmin, ← hsub, hcongr]

/-- `mean()` on a state whose cache is empty: it computes and stores the
normalization, then sums `p * x` over it. -/
lemma mean_of_none (h : RHist) (hh : h.hnorm = none) :
    h.mean = (h.norm, ∑ k in h.keys, ((h.cnt k : ℚ) * (1 / (h.n : ℚ))) * k) := by
  simp [RHist.mean, RHist.norm, hh]

/-- `mean()` on a state with a computed cache: the state is unchanged and
the cached pairs are summed. -/
lemma mean_of_some (h : RHist) (ks : Finset ℚ) (p : ℚ → ℚ)
    (hh : h.hnorm = some (ks, p)) :
    h.mean = (h, ∑ k in ks, p k * k) := by
  simp [RHist.mean, hh]

/-- On a freshly ingested state (no cache), `mean()` returns
`Σ k·cnt(k) / n` over the raw counts. -/
lemma mean_val_of_none (h : RHist) (hh : h.hnorm = none) :
    (h.mean).2 = h.meanFromCounts := by
  rw [mean_of_none h hh, RHist.meanFromCounts, Finset.sum_div]
  exact Finset.sum_congr rfl fun k _ => by ring

/-- `var()` on a state whose cache is empty. -/
lemma var_of_none (h : RHist) (hh : h.hnorm = none) :
    h.var = (h.norm,
      ∑ k in h.keys,
        ((h.cnt k : ℚ) * (1 / (h.n : ℚ))) * (k - (h.norm.mean).2) ^ 2) := by
  simp [RHist.var, RHist.norm, hh]

/-- On a freshly ingested state (no cache), `var()` returns the
probability-weighted population variance of the raw counts. -/
lemma var_val_of_none (h : RHist) (hh : h.hnorm = none) :
    (h.var).2 = h.varFromCounts := by
  have hnormsome : h.norm.hnorm
      = some (h.keys, fun k => (h.cnt k : ℚ) * (1 / (h.n : ℚ))) := rfl
  have hm : (h.norm.mean).2 = h.meanFromCounts := by
    rw [mean_of_some h.norm h.keys _ hnormsome, RHist.meanFromCounts,
      Finset.sum_div]
    exact Finset.sum_congr rfl fun k _ => by ring
  rw [var_of_none h hh, RHist.varFromCounts]
  simp only [hm]
  exact Finset.sum_congr rfl fun k _ => by ring

/-- `norm()` preserves the raw fields and stores the scaled copy. -/
lemma norm_fields (h : RHist) :
    h.norm.keys = h.keys ∧ h.norm.cnt = h.cnt ∧ h.norm.n = h.n :=
  ⟨rfl, rfl, rfl⟩

/-- The values stored by `norm()` sum to exactly `1` whenever at least one
sample has been ingested. -/
lemma norm_sum_one (h : RHist) (hn : 0 < h.n) :
    h.norm.hnormSum = some 1 := by
  have hne : ((h.n : ℚ)) ≠ 0 := by
    exact_mod_cast Nat.pos_iff_ne_zero.mp hn
  have hsum : (∑ k in h.keys, (h.cnt k : ℚ) * ((h.n : ℚ))⁻¹) = 1 := by
    rw [← Finset.sum_mul,
      show (∑ k in h.keys, (h.cnt k : ℚ)) = ((h.n : ℕ) : ℚ) by
        rw [RHist.n, Nat.cast_sum]]
    field_simp
  simp [RHist.hnormSum, RHist.norm, hsum]

/-! ## Evaluation of the concrete states -/

/-- `hist1` in explicit form. -/
lemma hist1_eval :
    hist1 = (⟨1, "h", {(1:ℚ)}, fun k => if k = (1:ℚ) then 1 else 0, none⟩ : RHist) := by
  simp [hist1, hist0, RHist.add, RHist.mk0, dlook, np_round_1]

/-- `hist11` in explicit form. -/
lemma hist11_eval :
    hist11 = (⟨1, "h", {(1:ℚ)}, fun k => if k = (1:ℚ) then 2 else 0, none⟩ : RHist) := by
  rw [hist11, hist1_eval]
  simp [RHist.add, dlook, np_round_1]
  funext k
  by_cases hk : k = (1:ℚ) <;> simp [hk]

/-- `hist12` in explicit form. -/
lemma hist12_eval :
    hist12 = (⟨1, "h", {(2:ℚ), 1},
      fun k => if k = (2:ℚ) then 1 else if k = (1:ℚ) then 1 else 0, none⟩ : RHist) := by
  rw [hist12, hist1_eval]
  simp [RHist.add, dlook, np_round_2]

/-- `hist123` in explicit form. -/
lemma hist123_eval :
    hist123 = (⟨1, "h", {(3:ℚ), 2, 1},
      fun k => if k = (3:ℚ) then 1 else if k = (2:ℚ) then 1
               else if k = (1:ℚ) then 1 else 0, none⟩ : RHist) := by
  rw [hist123, hist12_eval]
  simp [RHist.add, dlook, np_round_3]

/-- `hist1112` in explicit form. -/
lemma hist1112_eval :
    hist1112 = (⟨1, "h", {(2:ℚ), 1},
      fun k => if k = (2:ℚ) then 1 else if k = (1:ℚ) then 3 else 0, none⟩ : RHist) := by
  rw [hist1112, hist1_eval]
  simp [RHist.add, dlook, np_round_1, np_round_2]
  funext k
  by_cases h2 : k = (2:ℚ) <;> by_cases h1 : k = (1:ℚ) <;> simp [h1, h2]

/-- `histB` in explicit form. -/
lemma histB_eval :
    histB = (⟨1, "b", {(2:ℚ)}, fun k => if k = (2:ℚ) then 1 else 0, none⟩ : RHist) := by
  simp [histB, RHist.add, RHist.mk0, dlook, np_round_2]

/-- `histNan` in explicit form: the NaN sample was binned under the key
`nan` with count 1 — no error, no rejection. -/
lemma histNan_eval :
    histNan = (⟨1, "x", {PyFloat.nan},
      fun k => if k = PyFloat.nan then 1 else 0⟩ : RHistX) := by
  simp [histNan, RHistX.add, RHistX.mk0, dlook, roundPy]

/-- The `mean()` call inside `c3cached` caches the normalization. -/
lemma c3cached_def : c3cached = hist1.norm := by
  rw [c3cached, mean_of_none hist1 rfl]

/-- `c3cached` in explicit form: counts `{1.0: 1}` with `h_norm` computed. -/
lemma c3cached_eval :
    c3cached = (⟨1, "h", {(1:ℚ)}, fun k => if k = (1:ℚ) then 1 else 0,
      some ({(1:ℚ)}, fun k => if k = (1:ℚ) then (1:ℚ) else 0)⟩ : RHist) := by
  rw [c3cached_def, hist1_eval]
  simp [RHist.norm, RHist.n]

/-- `c3stale` in explicit form: counts `{1.0: 1, 2.0: 1}` but `h_norm` is
still the normalization of `{1.0: 1}` — the source did not invalidate it. -/
lemma c3stale_eval :
    c3stale = (⟨1, "h", {(2:ℚ), 1},
      fun k => if k = (2:ℚ) then 1 else if k = (1:ℚ) then 1 else 0,
      some ({(1:ℚ)}, fun k => if k = (1:ℚ) then (1:ℚ) else 0)⟩ : RHist) := by
  rw [c3stale, c3cached_eval]
  simp [RHist.add, dlook, np_round_2]

/-- `c9normed` in explicit form. -/
lemma c9normed_eval :
    c9normed = (⟨1, "h", {(1:ℚ)}, fun k => if k = (1:ℚ) then 1 else 0,
      some ({(1:ℚ)}, fun k => if k = (1:ℚ) then (1:ℚ) else 0)⟩ : RHist) := by
  rw [c9normed, hist1_eval]
  simp [RHist.norm, RHist.n]

/-- `c9stale` in explicit form: a key `2.0` exists in `counts` but not in
the computed `h_norm`. -/
lemma c9stale_eval :
    c9stale = (⟨1, "h", {(2:ℚ), 1},
      fun k => if k = (2:ℚ) then 1 else if k = (1:ℚ) then 1 else 0,
      some ({(1:ℚ)}, fun k => if k = (1:ℚ) then (1:ℚ) else 0)⟩ : RHist) := by
  rw [c9stale, c9normed_eval]
  simp [RHist.add, dlook, np_round_2]

/-- Sample counts of the concrete states. -/
lemma hist1_n : hist1.n = 1 := by
  rw [hist1_eval]
  simp [RHist.n]

/-- `hist11` holds two samples. -/
lemma hist11_n : hist11.n = 2 := by
  rw [hist11_eval]
  simp [RHist.n]

/-- `histB` holds one sample. -/
lemma histB_n : histB.n = 1 := by
  rw [histB_eval]
  simp [RHist.n]

/-- `hist1112` holds four samples. -/
lemma hist1112_n : hist1112.n = 4 := by
  rw [hist1112_eval]
  rw [RHist.n, Finset.sum_insert (by norm_num), Finset.sum_singleton]
  norm_num

/-- Reordering of the key-set literal of `hist123`. -/
lemma set321 : ({(3:ℚ), 2, 1} : Finset ℚ) = {1, 2, 3} := by
  ext x
  simp only [Finset.mem_insert, Finset.mem_singleton]
  tauto

/-- Reordering of the key-set literal of `hist12`. -/
lemma set21 : ({(2:ℚ), 1} : Finset ℚ) = {1, 2} := by
  ext x
  simp only [Finset.mem_insert, Finset.mem_singleton]
  tauto

/-- Sorting the three keys of `hist123`. -/
lemma sort123 : ({(1:ℚ), 2, 3} : Finset ℚ).sort (· ≤ ·) = [1, 2, 3] := by
  have h1 : ∀ b ∈ ({2, 3} : Finset ℚ), (1:ℚ) ≤ b := by norm_num
  have h2 : (1:ℚ) ∉ ({2, 3} : Finset ℚ) := by norm_num
  have h3 : ∀ b ∈ ({3} : Finset ℚ), (2:ℚ) ≤ b := by norm_num
  have h4 : (2:ℚ) ∉ ({3} : Finset ℚ) := by norm_num
  rw [show ({(1:ℚ), 2, 3} : Finset ℚ) = insert 1 {2, 3} from rfl,
    Finset.sort_insert (fun x1 x2 => x1 ≤ x2) h1 h2,
    show ({(2:ℚ), 3} : Finset ℚ) = insert 2 {3} from rfl,
    Finset.sort_insert (fun x1 x2 => x1 ≤ x2) h3 h4, Finset.sort_singleton]

/-- Sorting the two keys of `hist12`. -/
lemma sort12 : ({(1:ℚ), 2} : Finset ℚ).sort (· ≤ ·) = [1, 2] := by
  have h1 : ∀ b ∈ ({2} : Finset ℚ), (1:ℚ) ≤ b := by norm_num
  have h2 : (1:ℚ) ∉ ({2} : Finset ℚ) := by norm_num
  rw [show ({(1:ℚ), 2} : Finset ℚ) = insert 1 {2} from rfl,
    Finset.sort_insert (fun x1 x2 => x1 ≤ x2) h1 h2, Finset.sort_singleton]

/-! ## The claims -/

/-- C1, counterexample.  The claim says `h.Overlap(h)` returns `1.0` for
every populated histogram; on the populated one-sample histogram `hist1`
the source returns `0.5`, not `1.0` (each self-key contributes
`max(v,v) - |v-v| = v`, so the sum is `n`, divided by `n1 + n2 = 2n`). -/
theorem C1_cex : 0 < hist1.n ∧ (hist1.overlap hist1).1 ≠ some 1 := by
  constructor
  · rw [hist1_n]
    norm_num
  · rw [overlap_val, Finset.inter_self, hist1_n, hist1_eval]
    simp [npDiv]

/-- C1, amended.  Self-overlap of every populated histogram is `0.5`
(not `1.0`): the accumulated terms sum to `n` and are divided by `2n`. -/
theorem C1_overlap_self (h : RHist) (hn : 0 < h.n) :
    (h.overlap h).1 = some (1/2) := by
  have hq : (0:ℚ) < (h.n : ℚ) := by exact_mod_cast hn
  have hne : ((h.n : ℚ)) ≠ 0 := ne_of_gt hq
  rw [overlap_val, Finset.inter_self]
  have hs : (∑ k in h.keys, min (h.cnt k) (h.cnt k)) = h.n := by
    simp [RHist.n]
  rw [hs, npDiv, if_neg (by linarith)]
  congr 1
  field_simp
  ring

/-- C1, witness for `C1_overlap_self` at the populated histogram `hist1`. -/
theorem C1_overlap_self_w : 0 < hist1.n ∧ (hist1.overlap hist1).1 = some (1/2) := by
  have hp : 0 < hist1.n := by
    rw [hist1_n]
    norm_num
  exact ⟨hp, C1_overlap_self hist1 hp⟩

/-- C2.  The claim (and the spec's resolved 0-based semantics) prescribe
`Median() = 2.0` for bins `{1.0, 2.0, 3.0}` (middle index `(m-1)/2 = 1`) and
`1.5` for bins `{1.0, 2.0}` (average of indices `0` and `1`).  The source
instead indexes `values[(nvalues+1)/2]` for odd counts — returning `3.0`,
one past the middle — and `values[nvalues/2]`, `values[nvalues/2 + 1]` for
even counts — an `IndexError` (modelled `none`) on a two-bin histogram,
since `values[2]` is out of range. -/
theorem C2_median_offByOne : hist123.median = some 3 ∧ hist12.median = none := by
  constructor
  · rw [hist123_eval]
    simp only [RHist.median, set321, sort123]
    norm_num
  · rw [hist12_eval]
    simp only [RHist.median, set21, sort12]
    norm_num

/-- C3.  The claim says a `mean()` after `add(1.0); mean(); add(2.0)` reads
a fresh normalization and returns `(1·1 + 1·2)/2 = 1.5`.  The source never
invalidates `h_norm` on `add`, so the second `mean()` still reads the
normalization of `{1.0: 1}` and returns `1.0`, while the current counts
give `1.5`. -/
theorem C3_staleMean : (c3stale.mean).2 = 1 ∧ c3stale.meanFromCounts = 3/2 := by
  constructor
  · rw [c3stale_eval, mean_of_some _ _ _ rfl]
    simp
  · rw [c3stale_eval]
    rw [RHist.meanFromCounts, RHist.n,
      Finset.sum_insert (by norm_num), Finset.sum_insert (by norm_num),
      Finset.sum_singleton, Finset.sum_singleton]
    norm_num

/-- C4, counterexample.  The claim says `add` fails with
`InvalidInputError` on a non-finite sample and leaves `counts` unchanged.
The source performs no validation: `add(float("nan"))` succeeds and the
counts mapping now holds the bin `nan` with count `1`. -/
theorem C4_cex :
    histNan.keys = {PyFloat.nan} ∧ histNan.cnt PyFloat.nan = 1
    ∧ histNan.n = 1 := by
  refine ⟨?_, ?_, ?_⟩ <;> rw [histNan_eval] <;> simp [RHistX.n]

/-- C4, amended.  `add(x)` never fails, for finite and non-finite `x`
alike: it increments the bin `np.round(x, decimals)` (non-finite values
round to themselves) by exactly one, leaves every other bin's count
unchanged, and grows `n()` by one. -/
theorem C4_add_total (h : RHistX) (x : PyFloat) :
    (h.add x).n = h.n + 1
    ∧ dlook (h.add x).keys (h.add x).cnt (roundPy x h.decimals)
        = dlook h.keys h.cnt (roundPy x h.decimals) + 1
    ∧ ∀ k, k ≠ roundPy x h.decimals →
        dlook (h.add x).keys (h.add x).cnt k = dlook h.keys h.cnt k := by
  refine ⟨add_n_py h x, ?_, ?_⟩
  · simp [RHistX.add, dlook]
  · intro k hk
    by_cases hkk : k ∈ h.keys
    · simp [RHistX.add, dlook, hk, hkk]
    · simp [RHistX.add, dlook, hk, hkk]

/-- C4, witness for `C4_add_total`: ingesting `inf` into a fresh histogram
increments the `inf` bin and the total count, and leaves the bin `0.0`
untouched. -/
theorem C4_add_total_w :
    ((RHistX.mk0 "w" 1).add PyFloat.inf).n = (RHistX.mk0 "w" 1).n + 1
    ∧ dlook ((RHistX.mk0 "w" 1).add PyFloat.inf).keys
        ((RHistX.mk0 "w" 1).add PyFloat.inf).cnt
        (roundPy PyFloat.inf (RHistX.mk0 "w" 1).decimals)
      = dlook (RHistX.mk0 "w" 1).keys (RHistX.mk0 "w" 1).cnt
          (roundPy PyFloat.inf (RHistX.mk0 "w" 1).decimals) + 1
    ∧ dlook ((RHistX.mk0 "w" 1).add PyFloat.inf).keys
        ((RHistX.mk0 "w" 1).add PyFloat.inf).cnt (PyFloat.fin 0)
      = dlook (RHistX.mk0 "w" 1).keys (RHistX.mk0 "w" 1).cnt (PyFloat.fin 0) :=
  ⟨(C4_add_total (RHistX.mk0 "w" 1) PyFloat.inf).1,
   (C4_add_total (RHistX.mk0 "w" 1) PyFloat.inf).2.1,
   (C4_add_total (RHistX.mk0 "w" 1) PyFloat.inf).2.2 (PyFloat.fin 0)
     (by simp [roundPy])⟩

/-- C5.  On every non-empty histogram whose normalization has not been
cached yet, `mean()` computes the normalization `p(k) = cnt(k)/n` and
returns `Σ k·p(k) = Σ k·cnt(k)/n`; in particular the histogram with counts
`{1.0: 3, 2.0: 1}` has `mean() = 1.25` and `n() = 4`. -/
theorem C5_mean :
    (∀ h : RHist, h.hnorm = none → 0 < h.n → (h.mean).2 = h.meanFromCounts)
    ∧ (hist1112.mean).2 = 5/4 ∧ hist1112.n = 4 := by
  refine ⟨fun h hh _ => mean_val_of_none h hh, ?_, hist1112_n⟩
  rw [mean_val_of_none hist1112 (by rw [hist1112_eval]), hist1112_eval]
  rw [RHist.meanFromCounts, RHist.n,
    Finset.sum_insert (by norm_num), Finset.sum_insert (by norm_num),
    Finset.sum_singleton, Finset.sum_singleton]
  norm_num

/-- C5, witness for the universal part of `C5_mean` at `hist1112`. -/
theorem C5_mean_w :
    hist1112.hnorm = none ∧ 0 < hist1112.n
    ∧ (hist1112.mean).2 = hist1112.meanFromCounts := by
  have h1 : hist1112.hnorm = none := by rw [hist1112_eval]
  have h2 : 0 < hist1112.n := by
    rw [hist1112_n]
    norm_num
  exact ⟨h1, h2, C5_mean.1 hist1112 h1 h2⟩

/-- C6, counterexample.  The claim says `mean()` and `above(0)` on the
empty histogram fail with `EmptyHistogramError`.  No such exception class
exists in the source; on the empty histogram `n()` is the NumPy float
`0.0`, so `mean()` returns the value `0.0` normally (the weight `1./0.`
is `inf` with only a warning, and the empty sum is `0.0`) and `above(0)`
returns the value `nan` (`0.0/0.0`, modelled `none`) — neither raises. -/
theorem C6_cex : (hist0.mean).2 = 0 ∧ hist0.above 0 = none := by
  constructor
  · rw [mean_of_none hist0 rfl]
    simp [hist0, RHist.mk0]
  · simp [RHist.above, hist0, RHist.mk0, RHist.n, npDiv]

/-- C6, amended.  On the empty histogram: `n() = 0` (this part of the
claim holds); `mean()` and `var()` return `0.0` without failing; `above(0)`
returns the non-finite value `nan` without raising; only `median()` raises,
and with `IndexError` (`values[0]` on the empty key list), not with an
`EmptyHistogramError`, which does not exist in the source. -/
theorem C6_empty :
    hist0.n = 0 ∧ (hist0.mean).2 = 0 ∧ (hist0.var).2 = 0
    ∧ hist0.median = none ∧ hist0.above 0 = none := by
  refine ⟨rfl, ?_, ?_, ?_, ?_⟩
  · rw [mean_of_none hist0 rfl]
    simp [hist0, RHist.mk0]
  · rw [var_of_none hist0 rfl]
    simp [hist0, RHist.mk0]
  · simp [RHist.median, hist0, RHist.mk0]
  · simp [RHist.above, hist0, RHist.mk0, RHist.n, npDiv]

/-- C7, counterexample.  The claim says `stdev()` fails with
`EmptyHistogramError` whenever `n() ≤ 1`.  The source never raises: with
one sample the radicand is `var/0 = 0.0/0`, the NumPy value `nan`
(modelled `none`), so `stdev()` returns `nan`; with no samples the
radicand is `0.0/(0.0 - 1) = -0.0` and `stdev()` returns
`sqrt(-0.0) = -0.0`, an ordinary value. -/
theorem C7_cex :
    hist1.n = 1 ∧ (hist1.stdevRad).2 = none
    ∧ hist0.n = 0 ∧ (hist0.stdevRad).2 = some 0 := by
  have hv1 : (hist1.var).1.n = 1 := by
    rw [var_of_none hist1 rfl]
    exact hist1_n
  have hv0 : (hist0.var).1.n = 0 := by
    rw [var_of_none hist0 rfl]
    rfl
  have hval0 : (hist0.var).2 = 0 := by
    rw [var_of_none hist0 rfl]
    simp [hist0, RHist.mk0]
  refine ⟨hist1_n, ?_, rfl, ?_⟩
  · simp only [RHist.stdevRad, hv1]
    norm_num [npDiv]
  · simp only [RHist.stdevRad, hv0, hval0]
    norm_num [npDiv]

/-- C7, amended.  Whenever `n() ≥ 2` (and the normalization is not yet
cached), `stdev()` succeeds and returns
`sqrt(Variance()/(n()-1))` — the radicand is exactly the population
variance of the counts divided by `n() - 1`; for `n() ≤ 1` it does not
raise (see the counterexample). -/
theorem C7_stdev (h : RHist) (hh : h.hnorm = none) (hn : 2 ≤ h.n) :
    (h.stdevRad).2 = some (h.varFromCounts / ((h.n : ℚ) - 1)) := by
  have hne : ((h.n : ℚ) - 1) ≠ 0 := by
    have h2 : (2:ℚ) ≤ (h.n : ℚ) := by exact_mod_cast hn
    intro h0
    have : (h.n : ℚ) = 1 := by linarith
    linarith
  have hstate : (h.var).1 = h.norm := by
    rw [var_of_none h hh]
  have hv := var_val_of_none h hh
  simp only [RHist.stdevRad, hstate, hv]
  have hnn : (h.norm.n : ℚ) = (h.n : ℚ) := rfl
  rw [hnn, npDiv, if_neg hne]

/-- C7, witness for `C7_stdev` at the two-sample histogram `hist11`. -/
theorem C7_stdev_w :
    hist11.hnorm = none ∧ 2 ≤ hist11.n
    ∧ (hist11.stdevRad).2 = some (hist11.varFromCounts / ((hist11.n : ℚ) - 1)) := by
  have h1 : hist11.hnorm = none := rfl
  have h2 : 2 ≤ hist11.n := by
    rw [hist11_n]
  exact ⟨h1, h2, C7_stdev hist11 h1 h2⟩

/-- C8.  `overlap` is symmetric in value on populated histograms: each
accumulated term equals `min(v1, v2)`, keys missing on either side
contribute `0`, so both call orders sum `min` over the shared keys and
divide by the same `n1 + n2`. -/
theorem C8_overlap_symm (h1 h2 : RHist) (_ha : 0 < h1.n) (_hb : 0 < h2.n) :
    (h1.overlap h2).1 = (h2.overlap h1).1 := by
  rw [overlap_val, overlap_val, Finset.inter_comm]
  have e1 : (∑ k in h2.keys ∩ h1.keys, min (h1.cnt k) (h2.cnt k))
      = ∑ k in h2.keys ∩ h1.keys, min (h2.cnt k) (h1.cnt k) :=
    Finset.sum_congr rfl fun k _ => min_comm _ _
  rw [e1, add_comm ((h1.n : ℚ)) ((h2.n : ℚ))]

/-- C8, witness for `C8_overlap_symm` at the populated pair
`hist1` (counts `{1.0: 1}`) and `histB` (counts `{2.0: 1}`). -/
theorem C8_overlap_symm_w :
    0 < hist1.n ∧ 0 < histB.n
    ∧ (hist1.overlap histB).1 = (histB.overlap hist1).1 := by
  have p1 : 0 < hist1.n := by
    rw [hist1_n]
    norm_num
  have p2 : 0 < histB.n := by
    rw [histB_n]
    norm_num
  exact ⟨p1, p2, C8_overlap_symm hist1 histB p1 p2⟩

/-- C9, counterexample.  The claim quantifies over every state in which
`Count() > 0` and the normalized mapping "has been computed".  In the
reachable state `add(1.0); norm(); add(2.0)` the cache is computed and
`Count() = 2 > 0`, but its key set `{1.0}` differs from the key set
`{2.0, 1.0}` of `counts` — the source does not invalidate the cache. -/
theorem C9_cex :
    0 < c9stale.n ∧ c9stale.hnorm.isSome = true
    ∧ c9stale.hnormKeys ≠ some c9stale.keys := by
  refine ⟨?_, ?_, ?_⟩
  · rw [c9stale_eval, RHist.n, Finset.sum_insert (by norm_num),
      Finset.sum_singleton]
    norm_num
  · rw [c9stale_eval]
    rfl
  · rw [c9stale_eval]
    simp only [RHist.hnormKeys, Option.map_some]
    intro hcontra
    have h1 : ({(1:ℚ)} : Finset ℚ) = {(2:ℚ), 1} := by
      simpa using hcontra
    have h2 : (2:ℚ) ∈ ({(1:ℚ)} : Finset ℚ) := by
      rw [h1]
      simp
    rw [Finset.mem_singleton] at h2
    norm_num at h2

/-- C9, amended.  Immediately after `norm()` on a histogram with at least
one sample — i.e. while `counts` has not been mutated since the
computation — the cached mapping's key set equals the key set of `counts`
and its values sum to exactly `1`. -/
theorem C9_norm_inv (h : RHist) (hn : 0 < h.n) :
    h.norm.hnormKeys = some h.norm.keys ∧ h.norm.hnormSum = some 1 :=
  ⟨rfl, norm_sum_one h hn⟩

/-- C9, witness for `C9_norm_inv` at `hist1`. -/
theorem C9_norm_inv_w :
    0 < hist1.n ∧ hist1.norm.hnormKeys = some hist1.norm.keys
    ∧ hist1.norm.hnormSum = some 1 := by
  have hp : 0 < hist1.n := by
    rw [hist1_n]
    norm_num
  exact ⟨hp, (C9_norm_inv hist1 hp).1, (C9_norm_inv hist1 hp).2⟩

/-- C10, counterexample.  The claim says `self.overlap(other)` leaves
`other.counts`' key set unchanged.  With `self = hist1` (key `1.0`) and
`other = histB` (key `2.0`), the defaultdict lookup `other.h[1.0]` inserts
the key `1.0` into `other.h`, so the key set after the call differs from
`{2.0}`. -/
theorem C10_cex : ((hist1.overlap histB).2).keys ≠ histB.keys := by
  intro hcontra
  have h1 : (1:ℚ) ∈ ((hist1.overlap histB).2).keys := by
    rw [hist1_eval, histB_eval]
    simp [RHist.overlap]
  have h2 : (1:ℚ) ∉ histB.keys := by
    rw [histB_eval]
    simp only [Finset.mem_singleton]
    norm_num
  rw [hcontra] at h1
  exact h2 h1

/-- C10, amended.  After `self.overlap(other)`, `other.counts` has gained
exactly the keys of `self` it lacked, each stored with count `0`: every
previously present key keeps its stored value, every lookup (with absent
keys reading as `0`) is unchanged, and `other.n()` is unchanged. -/
theorem C10_frame (s o : RHist) :
    ((s.overlap o).2).keys = o.keys ∪ s.keys
    ∧ (∀ k ∈ o.keys, ((s.overlap o).2).cnt k = o.cnt k)
    ∧ (∀ k, dlook ((s.overlap o).2).keys ((s.overlap o).2).cnt k
        = dlook o.keys o.cnt k)
    ∧ ((s.overlap o).2).n = o.n := by
  refine ⟨rfl, ?_, ?_, ?_⟩
  · intro k hk
    simp [RHist.overlap, hk]
  · intro k
    by_cases hko : k ∈ o.keys
    · simp [RHist.overlap, dlook, hko]
    · by_cases hks : k ∈ s.keys
      · simp [RHist.overlap, dlook, hko, hks]
      · simp [RHist.overlap, dlook, hko, hks]
  · have hzero : ∀ k ∈ o.keys ∪ s.keys, k ∉ o.keys →
        (if k ∈ o.keys then o.cnt k else if k ∈ s.keys then 0 else o.cnt k)
          = 0 := by
      intro k hku hko
      have hks : k ∈ s.keys := by
        rcases Finset.mem_union.mp hku with h | h
        · exact absurd h hko
        · exact h
      simp [hko, hks]
    simp only [RHist.overlap, RHist.n]
    rw [← Finset.sum_subset Finset.subset_union_left hzero]
    exact Finset.sum_congr rfl fun k hk => by simp [hk]

/-- C10, witness for `C10_frame` at the pair `hist1`, `histB`. -/
theorem C10_frame_w :
    ((hist1.overlap histB).2).keys = histB.keys ∪ hist1.keys
    ∧ ((hist1.overlap histB).2).cnt 2 = histB.cnt 2
    ∧ dlook ((hist1.overlap histB).2).keys ((hist1.overlap histB).2).cnt 1
        = dlook histB.keys histB.cnt 1
    ∧ ((hist1.overlap histB).2).n = histB.n := by
  refine ⟨(C10_frame hist1 histB).1, ?_,
    (C10_frame hist1 histB).2.2.1 1, (C10_frame hist1 histB).2.2.2⟩
  exact (C10_frame hist1 histB).2.1 2 (by rw [histB_eval]; simp)
